import Mathlib

/-!
Shallow embedding of the Blaze native-engine parquet scan path and the
TryCastExpr physical expression, together with proofs of the specified
properties.

Sources embedded:
- src/native-engine/datafusion-ext-exprs/src/cast.rs
- src/native-engine/datafusion-ext-plans/src/parquet_exec.rs

Conventions: machine integers that cannot overflow in the modelled paths are
Nat; fallible Rust code returning Result is embedded as Except; Rust indexing
that can panic is embedded as Option; the opaque external types (arrow
DataType, PhysicalExpr children, schemas, parsed footers, error payloads) are
type parameters, written as single letters.
-/

namespace Blaze

/-! ## Embedding of datafusion-ext-exprs/src/cast.rs -/

/-- TryCastExpr (cast.rs lines 26-30): a cast expression holding a child
physical expression and a target arrow DataType. The child expression type
and the DataType type are opaque parameters P and D. -/
structure TryCastExpr (P D : Type) where
  expr : P
  cast_type : D

/-- TryCastExpr::data_type (cast.rs lines 58-60): returns Ok(cast_type.clone())
and ignores the input schema (schema type S, error type E). -/
def TryCastExpr.data_type {P D S E : Type} (e : TryCastExpr P D) (_input_schema : S) :
    Except E D :=
  .ok e.cast_type

/-- TryCastExpr::nullable (cast.rs lines 62-64): returns Ok(true) and ignores
the input schema. -/
def TryCastExpr.nullable {P D S E : Type} (_e : TryCastExpr P D) (_input_schema : S) :
    Except E Bool :=
  .ok true

/-- TryCastExpr::with_new_children (cast.rs lines 75-83): builds a new
TryCastExpr from children[0] and the original cast_type. The Rust code
indexes the children vector at 0, which panics on an empty vector; the panic
is embedded as the none case. -/
def TryCastExpr.with_new_children {P D : Type} (e : TryCastExpr P D) (children : List P) :
    Option (TryCastExpr P D) :=
  match children with
  | [] => none
  | c :: _ => some { expr := c, cast_type := e.cast_type }

/-! ## Embedding of parquet_exec.rs: pruning-predicate construction -/

/-- Result of the pruning-predicate part of ParquetExec::new: the stored
row-group pruning predicate and the value added to the global
num_predicate_creation_errors counter. -/
structure PruningConstruction (R : Type) where
  pruning_predicate : Option R
  num_predicate_creation_errors : Nat

/-- ParquetExec::new, pruning-predicate construction (parquet_exec.rs lines
85-102). Given the optional user predicate (type P), the
PruningPredicate::try_new constructor (abstract, returning Except) and the
always_true test, it mirrors: predicate.clone().and_then(match try_new with
Ok p then Some p else add 1 to the counter and None).filter(fun p => not
p.always_true()). Construction never fails: the function is total. -/
def parquet_exec_new_pruning {P R E : Type} (try_new : P → Except E R)
    (always_true : R → Bool) (predicate : Option P) : PruningConstruction R :=
  match predicate with
  | none => { pruning_predicate := none, num_predicate_creation_errors := 0 }
  | some predicate_expr =>
    match try_new predicate_expr with
    | .ok pruning_predicate =>
      { pruning_predicate :=
          if always_true pruning_predicate then none else some pruning_predicate,
        num_predicate_creation_errors := 0 }
    | .error _ =>
      { pruning_predicate := none, num_predicate_creation_errors := 1 }

/-! ## Embedding of parquet_exec.rs: byte-range reads and the bytes_scanned
metric -/

/-- A byte range as in Rust Range of usize; stop embeds the Rust field end
(a Lean keyword). -/
structure ByteRange where
  start : Nat
  stop : Nat

/-- Length of a requested range, range.end - range.start as computed by the
source (Nat subtraction; the source only builds ranges with start at most
end). -/
def ByteRange.len (r : ByteRange) : Nat :=
  r.stop - r.start

/-- AsyncFileReader::get_bytes for ParquetFileReaderRef (parquet_exec.rs lines
338-355): the bytes_scanned metric is incremented by range.end - range.start
before the blocking read is awaited; the read outcome (type B for bytes,
type E for the wrapped ParquetError) is produced by the underlying reader and
does not influence the metric update. The state passed is the current value
of the bytes_scanned counter. -/
def get_bytes {B E : Type} (bytes_scanned : Nat) (range : ByteRange)
    (outcome : Except E B) : Nat × Except E B :=
  (bytes_scanned + (range.stop - range.start), outcome)

/-- The byte-range fetch closure passed to fetch_parquet_metadata inside
get_metadata (parquet_exec.rs lines 393-406): textually the same metric
update as get_bytes, incrementing bytes_scanned by range.end - range.start
before awaiting the blocking read. -/
def get_metadata_fetch_read {B E : Type} (bytes_scanned : Nat) (range : ByteRange)
    (outcome : Except E B) : Nat × Except E B :=
  (bytes_scanned + (range.stop - range.start), outcome)

/-- The bytes_scanned counter after a sequence of reads, each a requested
range paired with its outcome, starting from a given counter value. -/
def run_reads {B E : Type} (bytes_scanned : Nat)
    (reads : List (ByteRange × Except E B)) : Nat :=
  reads.foldl (fun m r => (get_bytes m r.1 r.2).1) bytes_scanned

/-! ## Embedding of parquet_exec.rs: the footer-metadata cache (get_metadata,
lines 357-417). The cache table is a Vec of (ObjectMeta, slot) pairs (keys
are the file locations, type K); a slot is a bare tokio OnceCell holding an
Arc of ParquetMetaData (value type V), embedded as Option V: none is the
unresolved (pending) state, some v the resolved state. The cell is not
reference-counted: Clone on a tokio OnceCell builds a new independent cell
holding a copy of the current value (new_with(self.get().cloned())), and
the source hands each caller such a clone of the table entry on a hit
(line 375) and pushes a clone of the fresh cell into the table on a miss
(line 384). A caller therefore resolves only its private copy; the table
entry itself is never written after insertion. -/

/-- METADATA_CACHE_SIZE (parquet_exec.rs line 360): a hard-coded constant;
the source comment marks making it configurable as a TODO. -/
def METADATA_CACHE_SIZE : Nat := 5

/-- Sequential semantics of tokio OnceCell get_or_try_init as used at
parquet_exec.rs lines 390-412: if the cell is already resolved, return the
stored value without running the fetch; otherwise run the fetch, and on
success store and return the value, while on failure propagate the error and
leave the cell unresolved (the cell is not poisoned by a failed
initializer). Returns the call result and the cell state after the call. -/
def getOrTryInit {V E : Type} (slot : Option V) (fetch : Except E V) :
    Except E V × Option V :=
  match slot with
  | some v => (.ok v, some v)
  | none =>
    match fetch with
    | .ok v => (.ok v, some v)
    | .error e => (.error e, none)

/-- The lookup loop over the cache table (parquet_exec.rs lines 373-377):
scan entries in order and return the slot of the first entry whose location
equals the requested one, or none on a miss. -/
def lookup_slot {K V : Type} [DecidableEq K] :
    List (K × Option V) → K → Option (Option V)
  | [], _ => none
  | (k, s) :: rest, key => if k = key then some s else lookup_slot rest key

/-- tokio OnceCell Clone, as invoked at parquet_exec.rs lines 375 and 384:
builds a new cell holding a copy (a value snapshot) of the current
contents. The new cell shares no storage with the original, so resolving
one later never affects the other. -/
def OnceCell.clone {V : Type} (slot : Option V) : Option V :=
  slot

/-- ParquetFileReaderRef::get_metadata (parquet_exec.rs lines 357-417),
sequential view of one call: look the key up in the table; on a hit, take a
clone (snapshot) of the table entry and run get_or_try_init on that private
copy, leaving the table unchanged; on a miss, if the table has reached
METADATA_CACHE_SIZE entries remove the eldest entry (index 0), push a clone
of the fresh empty cell at the back (the pushed entry is pending and, being
an independent cell, stays pending), and run get_or_try_init on the
original fresh cell. Returns the fetch result and the table after the
call. -/
def get_metadata {K V E : Type} [DecidableEq K] (table : List (K × Option V))
    (key : K) (fetch : Except E V) : Except E V × List (K × Option V) :=
  match lookup_slot table key with
  | some slot =>
    ((getOrTryInit (OnceCell.clone slot) fetch).1, table)
  | none =>
    let table1 := if METADATA_CACHE_SIZE ≤ table.length then table.tail else table
    ((getOrTryInit (none : Option V) fetch).1,
      table1 ++ [(key, OnceCell.clone (none : Option V))])

/-- Whether one get_metadata call executes the underlying
fetch_parquet_metadata computation: get_or_try_init runs its initializer
exactly when the cell it is invoked on is unresolved, and the cell the
caller holds is its private clone of the table entry (hit) or the fresh
cell (miss). -/
def get_metadata_runs_fetch {K V : Type} [DecidableEq K]
    (table : List (K × Option V)) (key : K) : Bool :=
  match lookup_slot table key with
  | some slot =>
    match OnceCell.clone slot with
    | some _ => false
    | none => true
  | none => true

/-- The cache table after a sequence of get_metadata calls (key and fetch
outcome for each call), starting from the empty table the static
METADATA_CACHE is initialized with. -/
def run_get_metadata {K V E : Type} [DecidableEq K]
    (calls : List (K × Except E V)) : List (K × Option V) :=
  calls.foldl (fun table c => (get_metadata table c.1 c.2).2) []

/-- One get_metadata call in the presence of a hypothetically configured
metadata-cache capacity: the source reads no such configuration option
(METADATA_CACHE_SIZE at line 360 is a hard constant, with a TODO noting it
is not yet configurable), so the configured value is ignored. -/
def get_metadata_with_configured_capacity {K V E : Type} [DecidableEq K]
    (_configured_capacity : Nat) (table : List (K × Option V)) (key : K)
    (fetch : Except E V) : Except E V × List (K × Option V) :=
  get_metadata table key fetch

/-- The cache table after a sequence of calls under a hypothetically
configured capacity, starting from the empty table. -/
def run_get_metadata_with_configured_capacity {K V E : Type} [DecidableEq K]
    (capacity : Nat) (calls : List (K × Except E V)) : List (K × Option V) :=
  calls.foldl
    (fun table c => (get_metadata_with_configured_capacity capacity table c.1 c.2).2) []

/-- A concrete full cache table over Nat keys and values, used to exercise
the eviction path. -/
def tbl5 : List (Nat × Option Nat) :=
  [(0, some 0), (1, some 1), (2, some 2), (3, some 3), (4, some 4)]

/-! ## Embedding of parquet_exec.rs: storage-resource resolution in
ParquetExec::execute (lines 183-246) -/

/-- A resolved filesystem capability (FsProvider, built at line 205 from the
object returned by the JniBridge.getResource handshake). The value of the
handshake counter at resolution time serves as the identity of the live
resource handed back by the host. -/
structure FsProvider where
  resource_handle : Nat
deriving DecidableEq

/-- FsReaderFactory (parquet_exec.rs lines 274-283): holds the FsProvider
that the execute invocation constructing it resolved. -/
structure FsReaderFactory where
  fs_provider : FsProvider
deriving DecidableEq

/-- FsReaderFactory::create_reader (parquet_exec.rs lines 291-316): every
reader created by the factory reads through the factory's FsProvider; the
file argument never selects a different provider. -/
def FsReaderFactory.create_reader (factory : FsReaderFactory) (_file : Nat) : FsProvider :=
  factory.fs_provider

/-- ParquetExec::execute, resource-resolution slice (parquet_exec.rs lines
202-205 and 227): each invocation performs one JniBridge.getResource
handshake, wraps the result in an FsProvider and hands it to the
FsReaderFactory used by this invocation only. The threaded state is the
number of handshakes performed so far; the handshake consumes one fresh
handle. -/
def ParquetExec.execute (handshakes : Nat) (_partition_index : Nat) :
    FsReaderFactory × Nat :=
  ({ fs_provider := { resource_handle := handshakes } }, handshakes + 1)

/-- Driving the plan over several partitions: the engine calls execute once
per partition index; collects each partition's reader factory and the total
number of handshakes performed. -/
def execute_scan (partition_indices : List Nat) (handshakes : Nat) :
    List FsReaderFactory × Nat :=
  match partition_indices with
  | [] => ([], handshakes)
  | p :: ps =>
    let r := ParquetExec.execute handshakes p
    let rest := execute_scan ps r.2
    (r.1 :: rest.1, rest.2)

/-! ## Spec-modelled Partition Opener scan (pruning safety) -/

/-- Modelled from the spec: the Partition Opener scan loop is missing from
the sources (ParquetExec::execute at parquet_exec.rs lines 216-239 only
wires the pruning predicates into the external ParquetOpener/FileStream);
spec sections 4.3 and 4.4 describe it. A file is a list of row groups, each
a list of pages, each a list of rows (row type W). With pruning disabled
the scan decodes every page and emits the rows matching the row predicate
(the general-purpose filter evaluation the spec re-validates rows with). -/
def scan_without_pruning {W : Type} (pred : W → Bool)
    (file : List (List (List W))) : List W :=
  (file.map (fun g => g.flatten.filter pred)).flatten

/-- Modelled from the spec: the scan with the advisory pruning predicates
enabled physically reads only the row groups kept by both the row-group
statistics predicate and the bloom-filter check, and within them only the
pages kept by the page-index predicate, then emits the rows matching the
row predicate. -/
def scan_with_pruning {W : Type} (pred : W → Bool)
    (rg_keep : List (List W) → Bool) (bloom_keep : List (List W) → Bool)
    (page_keep : List W → Bool) (file : List (List (List W))) : List W :=
  ((file.filter (fun g => rg_keep g && bloom_keep g)).map
    (fun g => (g.filter page_keep).flatten.filter pred)).flatten

/-! ## Helper lemmas -/

/-- Dropping pages in which no row matches does not change the matching
rows of a row group. -/
lemma pages_pruned_filter {W : Type} (pred : W → Bool) (page_keep : List W → Bool) :
    ∀ g : List (List W), (∀ p ∈ g, page_keep p = false → ∀ r ∈ p, pred r = false) →
      ((g.filter page_keep).flatten).filter pred = (g.flatten).filter pred := by
  intro g
  induction g with
  | nil => intro _; rfl
  | cons p ps ih =>
    intro h
    have ih2 := ih (fun q hq => h q (List.mem_cons_of_mem p hq))
    rw [List.filter_cons]
    by_cases hp : page_keep p = true
    · rw [if_pos hp, List.flatten_cons, List.flatten_cons, List.filter_append,
        List.filter_append, ih2]
    · rw [if_neg hp]
      have hp2 : page_keep p = false := by simpa using hp
      have hnull : p.filter pred = [] := by
        refine List.filter_eq_nil_iff.mpr ?_
        intro r hr
        simp [h p (List.mem_cons_self p ps) hp2 r hr]
      rw [List.flatten_cons, List.filter_append, hnull, ih2]
      simp

/-- A row group in which no row matches contributes no emitted rows. -/
lemma group_no_match_filter {W : Type} (pred : W → Bool) (g : List (List W))
    (h : ∀ p ∈ g, ∀ r ∈ p, pred r = false) : (g.flatten).filter pred = [] := by
  refine List.filter_eq_nil_iff.mpr ?_
  intro r hr
  rw [List.mem_flatten] at hr
  obtain ⟨p, hp, hrp⟩ := hr
  simp [h p hp r hrp]

/-- Pruning safety over sound pruning tiers, by induction on the row
groups. -/
lemma pruning_safety_aux {W : Type} (pred : W → Bool)
    (rg_keep bloom_keep : List (List W) → Bool) (page_keep : List W → Bool) :
    ∀ file : List (List (List W)),
      (∀ g ∈ file, rg_keep g = false → ∀ p ∈ g, ∀ r ∈ p, pred r = false) →
      (∀ g ∈ file, bloom_keep g = false → ∀ p ∈ g, ∀ r ∈ p, pred r = false) →
      (∀ g ∈ file, ∀ p ∈ g, page_keep p = false → ∀ r ∈ p, pred r = false) →
      scan_with_pruning pred rg_keep bloom_keep page_keep file =
        scan_without_pruning pred file := by
  intro file
  induction file with
  | nil => intro _ _ _; rfl
  | cons g gs ih =>
    intro hrg hbloom hpage
    have ih2 := ih (fun x hx => hrg x (List.mem_cons_of_mem g hx))
      (fun x hx => hbloom x (List.mem_cons_of_mem g hx))
      (fun x hx => hpage x (List.mem_cons_of_mem g hx))
    simp only [scan_with_pruning, scan_without_pruning] at ih2 ⊢
    rw [List.filter_cons]
    by_cases hk : (rg_keep g && bloom_keep g) = true
    · rw [if_pos hk, List.map_cons, List.flatten_cons, List.map_cons, List.flatten_cons,
        pages_pruned_filter pred page_keep g
          (fun p hp => hpage g (List.mem_cons_self g gs) p hp), ih2]
    · rw [if_neg hk]
      have hor : rg_keep g = false ∨ bloom_keep g = false := by
        cases hr : rg_keep g
        · exact Or.inl rfl
        · cases hb : bloom_keep g
          · exact Or.inr rfl
          · exact absurd (by rw [hr, hb]; rfl) hk
      have hfail : ∀ p ∈ g, ∀ r ∈ p, pred r = false :=
        hor.elim (fun h => hrg g (List.mem_cons_self g gs) h)
          (fun h => hbloom g (List.mem_cons_self g gs) h)
      rw [List.map_cons, List.flatten_cons, group_no_match_filter pred g hfail]
      simpa using ih2

/-- Accumulated bytes_scanned equals the starting counter plus the sum of
the requested range lengths. -/
lemma run_reads_eq {B E : Type} (reads : List (ByteRange × Except E B)) :
    ∀ m, run_reads m reads = m + (reads.map (fun r => r.1.len)).sum := by
  induction reads with
  | nil => intro m; simp [run_reads]
  | cons r rs ih =>
    intro m
    have h : run_reads m (r :: rs) = run_reads (m + r.1.len) rs := rfl
    rw [h, ih]
    simp [List.map_cons, List.sum_cons]
    omega

/-- A key absent from a table is absent from its tail. -/
lemma lookup_slot_tail_none {K V : Type} [DecidableEq K]
    (t : List (K × Option V)) (key : K) (h : lookup_slot t key = none) :
    lookup_slot t.tail key = none := by
  cases t with
  | nil => simp [lookup_slot]
  | cons e rest =>
    obtain ⟨k, s⟩ := e
    by_cases hk : k = key
    · simp [lookup_slot, hk] at h
    · simp [lookup_slot, hk] at h
      simpa using h

/-- Looking up in an append skips a prefix that misses the key. -/
lemma lookup_slot_append_none {K V : Type} [DecidableEq K]
    (t1 t2 : List (K × Option V)) (key : K) (h : lookup_slot t1 key = none) :
    lookup_slot (t1 ++ t2) key = lookup_slot t2 key := by
  induction t1 with
  | nil => simp
  | cons e rest ih =>
    obtain ⟨k, s⟩ := e
    by_cases hk : k = key
    · simp [lookup_slot, hk] at h
    · simp [lookup_slot, hk] at h ⊢
      exact ih h

/-- One get_metadata call keeps the table within METADATA_CACHE_SIZE. -/
lemma get_metadata_length_le {K V E : Type} [DecidableEq K]
    (table : List (K × Option V)) (key : K) (fetch : Except E V)
    (h : table.length ≤ METADATA_CACHE_SIZE) :
    ((get_metadata table key fetch).2).length ≤ METADATA_CACHE_SIZE := by
  unfold get_metadata
  cases hl : lookup_slot table key with
  | some slot => simpa using h
  | none =>
    simp only [METADATA_CACHE_SIZE] at h ⊢
    by_cases hc : 5 ≤ table.length
    · have ht : table.tail.length = table.length - 1 := List.length_tail table
      simp [hc, ht]
      omega
    · simp [hc]
      omega

/-- Any sequence of get_metadata calls keeps the table within
METADATA_CACHE_SIZE, starting from any table already within it. -/
lemma run_get_metadata_length_aux {K V E : Type} [DecidableEq K]
    (calls : List (K × Except E V)) :
    ∀ table : List (K × Option V), table.length ≤ METADATA_CACHE_SIZE →
      (calls.foldl (fun t c => (get_metadata t c.1 c.2).2) table).length ≤
        METADATA_CACHE_SIZE := by
  induction calls with
  | nil => intro table h; simpa using h
  | cons c cs ih =>
    intro table h
    exact ih _ (get_metadata_length_le table c.1 c.2 h)

/-- A get_metadata call that hits a pending slot runs the fetch and returns
its successful result. -/
lemma get_metadata_hit_pending {K V E : Type} [DecidableEq K]
    (table : List (K × Option V)) (key : K) (v : V)
    (h : lookup_slot table key = some none) :
    (get_metadata table key (.ok v : Except E V)).1 = .ok v := by
  unfold get_metadata
  rw [h]
  rfl

/-! ## Claim theorems -/

/-- C9: for every TryCastExpr and every input schema, data_type returns the
configured cast_type (the same answer for every input schema, independent of
the child expression) and nullable returns true. -/
theorem tryCast_data_type_nullable {P D S E : Type} (e : TryCastExpr P D) (s s1 : S) :
    e.data_type (E := E) s = .ok e.cast_type ∧
    e.nullable (E := E) s = .ok true ∧
    e.data_type (E := E) s = e.data_type (E := E) s1 :=
  ⟨rfl, rfl, rfl⟩

/-- C10: with_new_children is undefined (a panic, embedded as none) on an
empty children list, and on every non-empty list it succeeds, returning a
TryCastExpr whose child is the head of the list and whose cast_type is the
original cast_type. -/
theorem tryCast_with_new_children_spec {P D : Type} (e : TryCastExpr P D) :
    e.with_new_children ([] : List P) = none ∧
    ∀ (c : P) (cs : List P),
      e.with_new_children (c :: cs) = some { expr := c, cast_type := e.cast_type } :=
  ⟨rfl, fun _ _ => rfl⟩

/-- C3: pruning-predicate construction is total (never fails the plan); on a
construction error the stored predicate is none and the global error counter
is incremented by exactly 1; on success the predicate is discarded when it
is always-true and stored otherwise, with no error counted. -/
theorem parquet_exec_new_pruning_spec {P R E : Type} (try_new : P → Except E R)
    (always_true : R → Bool) (pe : P) :
    (∀ e : E, try_new pe = .error e →
      parquet_exec_new_pruning try_new always_true (some pe) =
        { pruning_predicate := none, num_predicate_creation_errors := 1 }) ∧
    (∀ p : R, try_new pe = .ok p → always_true p = true →
      parquet_exec_new_pruning try_new always_true (some pe) =
        { pruning_predicate := none, num_predicate_creation_errors := 0 }) ∧
    (∀ p : R, try_new pe = .ok p → always_true p = false →
      parquet_exec_new_pruning try_new always_true (some pe) =
        { pruning_predicate := some p, num_predicate_creation_errors := 0 }) := by
  refine ⟨fun e he => ?_, fun p hp ht => ?_, fun p hp ht => ?_⟩
  · simp [parquet_exec_new_pruning, he]
  · simp [parquet_exec_new_pruning, hp, ht]
  · simp [parquet_exec_new_pruning, hp, ht]

/-- Witness for C3 at a concrete failing constructor. -/
theorem parquet_exec_new_pruning_spec_witness :
    parquet_exec_new_pruning (fun _ : Nat => (.error 0 : Except Nat Nat))
        (fun _ => true) (some 0) =
      { pruning_predicate := none, num_predicate_creation_errors := 1 } :=
  (parquet_exec_new_pruning_spec (fun _ : Nat => (.error 0 : Except Nat Nat))
    (fun _ => true) 0).1 0 rfl

/-- C4: each read (data read or footer read) adds exactly the requested
range length to bytes_scanned, independently of the read outcome, and the
total bytes_scanned over a sequence of reads equals the sum of the requested
range lengths. -/
theorem bytes_scanned_accounting {B E : Type} (m : Nat) (range : ByteRange)
    (o1 o2 : Except E B) (reads : List (ByteRange × Except E B)) :
    (get_bytes m range o1).1 = m + range.len ∧
    (get_metadata_fetch_read m range o1).1 = m + range.len ∧
    (get_bytes m range o1).1 = (get_bytes m range o2).1 ∧
    run_reads 0 reads = (reads.map (fun r => r.1.len)).sum := by
  refine ⟨rfl, rfl, rfl, ?_⟩
  simpa using run_reads_eq reads 0

/-- C2: the metadata cache table never exceeds METADATA_CACHE_SIZE entries
over any sequence of get_metadata calls starting from the empty table, and a
lookup miss at capacity first removes the head entry (the earliest-inserted,
since entries are appended at the back) and then appends the new pending
slot (the clone of the fresh cell, which stays pending). -/
theorem metadata_cache_bounded {K V E : Type} [DecidableEq K]
    (calls : List (K × Except E V)) (table : List (K × Option V)) (key : K)
    (fetch : Except E V) :
    (run_get_metadata calls).length ≤ METADATA_CACHE_SIZE ∧
    (table.length = METADATA_CACHE_SIZE → lookup_slot table key = none →
      (get_metadata table key fetch).2 =
        table.tail ++ [(key, (none : Option V))]) := by
  constructor
  · exact run_get_metadata_length_aux calls [] (by simp)
  · intro hlen hmiss
    unfold get_metadata
    rw [hmiss]
    simp [hlen, OnceCell.clone]

/-- Witness for C2: a miss on a full five-entry table evicts the head and
appends the new pending slot. -/
theorem metadata_cache_bounded_witness :
    (get_metadata tbl5 100 (.ok 7 : Except Nat Nat)).2 =
      tbl5.tail ++ [(100, (none : Option Nat))] :=
  (metadata_cache_bounded ([] : List (Nat × Except Nat Nat)) tbl5 100 (.ok 7)).2
    (by decide) (by decide)

/-- C8: when the slot of a file identity is unresolved (absent or pending)
and the fetch fails, the error is returned to the caller, the slot is left
unresolved rather than poisoned, and a subsequent get_metadata call for the
same identity re-runs the fetch and succeeds when the fetch succeeds. -/
theorem metadata_fetch_failure_not_poisoned {K V E : Type} [DecidableEq K]
    (table : List (K × Option V)) (key : K) (e : E) (v : V)
    (h : lookup_slot table key = none ∨ lookup_slot table key = some none) :
    (get_metadata table key (.error e)).1 = .error e ∧
    lookup_slot (get_metadata table key (.error e)).2 key = some none ∧
    (get_metadata (get_metadata table key (.error e)).2 key
      (.ok v : Except E V)).1 = .ok v := by
  have hstep : (get_metadata table key (.error e)).1 = .error e ∧
      lookup_slot (get_metadata table key (.error e)).2 key = some none := by
    rcases h with hmiss | hpend
    · unfold get_metadata
      rw [hmiss]
      refine ⟨rfl, ?_⟩
      have h1 : lookup_slot
          (if METADATA_CACHE_SIZE ≤ table.length then table.tail else table) key = none := by
        by_cases hc : METADATA_CACHE_SIZE ≤ table.length
        · simpa [hc] using lookup_slot_tail_none table key hmiss
        · simpa [hc] using hmiss
      rw [lookup_slot_append_none _ _ _ h1]
      simp [lookup_slot, OnceCell.clone]
    · unfold get_metadata
      rw [hpend]
      exact ⟨rfl, hpend⟩
  exact ⟨hstep.1, hstep.2, get_metadata_hit_pending _ _ _ hstep.2⟩

/-- Witness for C8: a failed fetch on an empty table, then a successful
retry. -/
theorem metadata_fetch_failure_not_poisoned_witness :
    (get_metadata ([] : List (Nat × Option Nat)) 0 (.error (1 : Nat))).1 = .error 1 ∧
    lookup_slot (get_metadata ([] : List (Nat × Option Nat)) 0 (.error (1 : Nat))).2 0 =
      some none ∧
    (get_metadata (get_metadata ([] : List (Nat × Option Nat)) 0 (.error (1 : Nat))).2 0
      (.ok 7 : Except Nat Nat)).1 = .ok 7 :=
  metadata_fetch_failure_not_poisoned [] 0 1 7 (Or.inl rfl)

/-- C7 counterexample: under a hypothetically configured capacity of 1 the
cache still grows to 3 entries after 3 distinct keys, so the cache does not
operate with the configured capacity. -/
theorem metadata_cache_capacity_not_configurable :
    (run_get_metadata_with_configured_capacity 1
      [((0 : Nat), (.ok (0 : Nat) : Except Nat Nat)), (1, .ok 1), (2, .ok 2)]).length = 3 ∧
    ¬ (run_get_metadata_with_configured_capacity 1
      [((0 : Nat), (.ok (0 : Nat) : Except Nat Nat)), (1, .ok 1), (2, .ok 2)]).length ≤ 1 := by
  decide

/-- C7 amended: the metadata-cache capacity is the hard-coded constant 5,
not a configuration input: every hypothetically configured capacity is
ignored (the call behaves exactly like get_metadata), and the table length
stays within the constant 5. -/
theorem metadata_cache_capacity_constant {K V E : Type} [DecidableEq K]
    (capacity : Nat) (table : List (K × Option V)) (key : K) (fetch : Except E V)
    (calls : List (K × Except E V)) :
    METADATA_CACHE_SIZE = 5 ∧
    get_metadata_with_configured_capacity capacity table key fetch =
      get_metadata table key fetch ∧
    (run_get_metadata_with_configured_capacity capacity calls).length ≤
      METADATA_CACHE_SIZE := by
  refine ⟨rfl, rfl, ?_⟩
  exact run_get_metadata_length_aux calls [] (by simp)

/-- The total number of getResource handshakes after driving a scan over a
list of partitions equals the starting count plus the number of
partitions. -/
lemma execute_scan_handshakes (partition_indices : List Nat) :
    ∀ handshakes, (execute_scan partition_indices handshakes).2 =
      handshakes + partition_indices.length := by
  induction partition_indices with
  | nil => intro handshakes; simp [execute_scan]
  | cons p ps ih =>
    intro handshakes
    simp [execute_scan, ParquetExec.execute, ih]
    omega

/-- C6 counterexample: executing the plan over two partitions performs two
getResource handshakes, not one, and the two partitions hold distinct
resolved resources rather than sharing one. -/
theorem fs_resource_not_resolved_once_per_scan :
    (execute_scan [0, 1] 0).2 = 2 ∧
    ¬ (execute_scan [0, 1] 0).2 = 1 ∧
    ((execute_scan [0, 1] 0).1.map fun f => f.fs_provider) =
      [{ resource_handle := 0 }, { resource_handle := 1 }] ∧
    ({ resource_handle := 0 } : FsProvider) ≠ { resource_handle := 1 } := by
  refine ⟨rfl, by decide, rfl, by decide⟩

/-- C6 amended: the storage resource is resolved exactly once per execute
invocation, that is once per partition, and all file readers created within
that invocation share the one resolved resource; over a multi-partition
scan the handshake count equals the partition count. -/
theorem fs_resource_resolved_once_per_execute (handshakes p f1 f2 : Nat)
    (partition_indices : List Nat) :
    (ParquetExec.execute handshakes p).2 = handshakes + 1 ∧
    (ParquetExec.execute handshakes p).1.create_reader f1 =
      (ParquetExec.execute handshakes p).1.create_reader f2 ∧
    (execute_scan partition_indices 0).2 = partition_indices.length := by
  refine ⟨rfl, rfl, ?_⟩
  simpa using execute_scan_handshakes partition_indices 0

/-- C1 is violated by the code: starting from the unresolved state, the
first get_metadata call for a file identity executes the underlying fetch,
yet after that call completes successfully the table entry for the identity
is still unresolved (the table holds only a never-resolved clone of the
cell), so a second call for the same identity executes the fetch again: two
callers perform two fetches instead of sharing one, and neither result
comes from a shared slot. -/
theorem metadata_fetch_runs_twice :
    get_metadata_runs_fetch ([] : List (Nat × Option Nat)) 0 = true ∧
    lookup_slot (get_metadata ([] : List (Nat × Option Nat)) 0
      (.ok 7 : Except Nat Nat)).2 0 = some none ∧
    get_metadata_runs_fetch
      (get_metadata ([] : List (Nat × Option Nat)) 0 (.ok 7 : Except Nat Nat)).2 0 =
      true := by
  decide

/-- C5: for every file and predicate, when each advisory pruning tier is
sound — it only skips a row group or page in which no row satisfies the
predicate, which is the contract of statistics, page-index and bloom-filter
pruning — the rows emitted with the pruning predicates enabled equal the
rows emitted with all pruning disabled: pruning only reduces what is
physically read and never drops a matching row. -/
theorem pruning_safety {W : Type} (pred : W → Bool)
    (rg_keep bloom_keep : List (List W) → Bool) (page_keep : List W → Bool)
    (file : List (List (List W)))
    (hrg : ∀ g ∈ file, rg_keep g = false → ∀ p ∈ g, ∀ r ∈ p, pred r = false)
    (hbloom : ∀ g ∈ file, bloom_keep g = false → ∀ p ∈ g, ∀ r ∈ p, pred r = false)
    (hpage : ∀ g ∈ file, ∀ p ∈ g, page_keep p = false → ∀ r ∈ p, pred r = false) :
    scan_with_pruning pred rg_keep bloom_keep page_keep file =
      scan_without_pruning pred file :=
  pruning_safety_aux pred rg_keep bloom_keep page_keep file hrg hbloom hpage

/-- Witness for C5: a two-row-group file in which the first group (a single
row 1, failing the predicate 10 < r) is pruned away while the second (a
single row 11) is kept; both scans emit exactly the row 11. -/
theorem pruning_safety_witness :
    scan_with_pruning (fun r => decide (10 < r)) (fun g => decide (g ≠ [[1]]))
        (fun _ => true) (fun _ => true) [[[1]], [[11]]] =
      scan_without_pruning (fun r => decide (10 < r)) [[[1]], [[11]]] :=
  pruning_safety (fun r => decide (10 < r)) (fun g => decide (g ≠ [[1]]))
    (fun _ => true) (fun _ => true) [[[1]], [[11]]]
    (by decide) (by decide) (by decide)

end Blaze
